import Mathlib

/-!
Shallow embedding of `src/load_balancer/load_balancer.py` (a TCP load
balancer with round-robin and least-connections selection, a periodic
health-check loop and a bidirectional byte forwarder).

Conventions of the embedding:
* A `Server` record mirrors the Python `Server` object; the asyncio lock is
  synchronization detail and carries no data, so it is not a field.
  `active_connections` is a Python `int` that the code decrements without a
  guard, hence it is modelled as `Int`.
* The load balancer's mutable state is a `LoadBalancer` record; selection
  functions return the index (into `servers`) of the chosen backend together
  with the updated state, mirroring that Python mutates the shared `Server`
  object held inside `self.servers`.
* Network effects are inputs: a health probe's outcome is an
  `Except ProbeError Unit` (success or the caught exception), the backend
  dial outcome is a `Bool`, and each relay direction's reads are a
  `List ReadResult`.  Timestamps are abstract `Nat` clock values.
-/

inductive LoadBalancingAlgorithm where
  | round_robin
  | least_connections
deriving DecidableEq, Repr

structure Server where
  host : String
  port : Nat
  name : String
  is_healthy : Bool
  active_connections : Int
  total_requests : Nat
  last_health_check : Nat
deriving DecidableEq, Repr, Inhabited

/-- `Server.__init__`: fresh server, healthy, zero counters, timestamp `now`. -/
def Server.init (host : String) (port : Nat) (name : String) (now : Nat) : Server :=
  { host := host, port := port, name := name, is_healthy := true,
    active_connections := 0, total_requests := 0, last_health_check := now }

/-- `Server.increment_connections`: bumps the active and lifetime counters. -/
def Server.increment_connections (s : Server) : Server :=
  { s with active_connections := s.active_connections + 1,
           total_requests := s.total_requests + 1 }

/-- `Server.decrement_connections`: decrements the active counter (no guard). -/
def Server.decrement_connections (s : Server) : Server :=
  { s with active_connections := s.active_connections - 1 }

structure LoadBalancer where
  algorithm : LoadBalancingAlgorithm
  listen_port : Nat
  servers : List Server
  current_server_index : Nat
  running : Bool
deriving DecidableEq, Repr

/-- `LoadBalancer.add_server`: appends a fresh server to the registry. -/
def LoadBalancer.add_server (lb : LoadBalancer) (host : String) (port : Nat)
    (name : String) (now : Nat) : LoadBalancer :=
  { lb with servers := lb.servers ++ [Server.init host port name now] }

/-- Replace the element at position `j` by `f` of it (no-op when out of range);
models mutating the `Server` object stored at position `j` of `self.servers`. -/
def modifyIdx (f : Server → Server) : Nat → List Server → List Server
  | _, [] => []
  | 0, s :: rest => f s :: rest
  | n + 1, s :: rest => s :: modifyIdx f n rest

/-- Positions of the healthy servers, in configuration order: the indices that
`[s for s in self.servers if s.is_healthy]` selects from. -/
def healthyIdx : List Server → List Nat
  | [] => []
  | s :: rest =>
      if s.is_healthy then 0 :: (healthyIdx rest).map (· + 1)
      else (healthyIdx rest).map (· + 1)

/-- The server stored at position `i` (default element when out of range). -/
def serverAt (ss : List Server) (i : Nat) : Server := ss.getD i default

def activeAt (ss : List Server) (i : Nat) : Int := (serverAt ss i).active_connections

def totalAt (ss : List Server) (i : Nat) : Nat := (serverAt ss i).total_requests

def healthyAt (ss : List Server) (i : Nat) : Bool := (serverAt ss i).is_healthy

def nameAt (ss : List Server) (i : Nat) : String := (serverAt ss i).name

def hostAt (ss : List Server) (i : Nat) : String := (serverAt ss i).host

def portAt (ss : List Server) (i : Nat) : Nat := (serverAt ss i).port

def lastCheckAt (ss : List Server) (i : Nat) : Nat := (serverAt ss i).last_health_check

/-- `LoadBalancer._round_robin`: filter to healthy servers, return `None` if
none, else pick `healthy_servers[current_server_index % len(healthy_servers)]`,
advance the cursor, and increment the chosen server's counters immediately. -/
def LoadBalancer.round_robin (lb : LoadBalancer) : Option Nat × LoadBalancer :=
  let hs := healthyIdx lb.servers
  if hs.length = 0 then (none, lb)
  else
    let j := hs.getD (lb.current_server_index % hs.length) 0
    (some j,
      { lb with
        servers := modifyIdx Server.increment_connections j lb.servers,
        current_server_index := lb.current_server_index + 1 })

/-- First index (scanning left to right) whose server has the minimum
`active_connections`: the semantics of Python's
`min(healthy_servers, key=lambda s: s.active_connections)`. -/
def argminActive (ss : List Server) : List Nat → Option Nat
  | [] => none
  | i :: rest =>
      match argminActive ss rest with
      | none => some i
      | some j => if activeAt ss j < activeAt ss i then some j else some i

/-- `LoadBalancer._least_connections`: filter to healthy servers, return `None`
if none, else pick the first one with minimum active connections and increment
its counters immediately (the reservation). -/
def LoadBalancer.least_connections (lb : LoadBalancer) : Option Nat × LoadBalancer :=
  let hs := healthyIdx lb.servers
  match argminActive lb.servers hs with
  | none => (none, lb)
  | some j =>
      (some j, { lb with servers := modifyIdx Server.increment_connections j lb.servers })

/-- `LoadBalancer.get_next_server`: dispatch on the configured algorithm (the
Python `else` fallback is also `_round_robin`, unreachable for this two-valued
enum). -/
def LoadBalancer.get_next_server (lb : LoadBalancer) : Option Nat × LoadBalancer :=
  match lb.algorithm with
  | .round_robin => lb.round_robin
  | .least_connections => lb.least_connections

inductive ProbeError where
  | timeout
  | refused
  | ioError
deriving DecidableEq, Repr, Inhabited

/-- Outcome of one probe attempt (`asyncio.open_connection` under
`wait_for`): success, or the exception the attempt raised. -/
abbrev ProbeOutcome := Except ProbeError Unit

/-- `LoadBalancer.check_server_health`: the `try` block returns `True` on a
successful connect-and-close; `except Exception` maps every failure
(timeout, refusal, any I/O error) to `False`.  Total: every outcome yields a
`Bool`, no exception escapes. -/
def check_server_health : ProbeOutcome → Bool
  | .ok _ => true
  | .error _ => false

/-- One entry of the `asyncio.gather(..., return_exceptions=True)` result in
the health loop: either the `bool` a probe returned, or an exception object. -/
inductive GatherResult where
  | bool_result (b : Bool)
  | exception_result
deriving DecidableEq, Repr, Inhabited

/-- The coercion `is_healthy if isinstance(is_healthy, bool) else False`
applied to each gather result in `health_check_loop`. -/
def coerceResult : GatherResult → Bool
  | .bool_result b => b
  | .exception_result => false

/-- The `for server, is_healthy in zip(self.servers, health_results)` body:
set each zipped server's health flag to the coerced result and stamp the check
time; servers beyond the zip (none in practice) are untouched. -/
def applyHealthResults (now : Nat) : List Server → List GatherResult → List Server
  | [], _ => []
  | ss, [] => ss
  | s :: ss, r :: rs =>
      { s with is_healthy := coerceResult r, last_health_check := now } ::
        applyHealthResults now ss rs

/-- One cycle of `LoadBalancer.health_check_loop`: gather the probe results
for all servers and fold them into the registry. -/
def LoadBalancer.health_check_cycle (lb : LoadBalancer) (results : List GatherResult)
    (now : Nat) : LoadBalancer :=
  { lb with servers := applyHealthResults now lb.servers results }

/-- Run one cycle from raw probe outcomes: each probe coroutine returns the
`bool` from `check_server_health` (which never raises), so the gathered list
is `bool_result` entrywise. -/
def LoadBalancer.health_cycle_of_probes (lb : LoadBalancer) (probes : List ProbeOutcome)
    (now : Nat) : LoadBalancer :=
  lb.health_check_cycle (probes.map (fun p => GatherResult.bool_result (check_server_health p))) now

/-- One `reader.read(4096)` outcome inside `forward_data`: a chunk of bytes
(empty means EOF) or an I/O exception. -/
inductive ReadResult where
  | data (bytes : List Nat)
  | ioError
deriving DecidableEq, Repr

/-- `LoadBalancer.forward_data`: copy chunks until an empty read (EOF), an
exception (caught and suppressed), or `self.running` turning false; returns
the chunks written to the destination.  The `finally` block always closes the
writer, and no exception propagates to the caller. -/
def forward_data (running : Bool) : List ReadResult → List (List Nat)
  | [] => []
  | ev :: rest =>
      if running then
        match ev with
        | .data [] => []
        | .data bs => bs :: forward_data running rest
        | .ioError => []
      else []

/-- Observable outcome of one `handle_client` session, besides the registry. -/
structure SessionResult where
  forwarded_to_server : List (List Nat)
  forwarded_to_client : List (List Nat)
  client_closed : Bool
  server_closed : Bool
  marked_unhealthy : Bool
deriving DecidableEq, Repr

/-- `LoadBalancer.handle_client` as a function of the session environment:
`dial_ok` is whether `open_connection` to the backend succeeded within the
timeout; `c2s` and `s2c` are the two directions' read traces.  Mirrors the
source's control flow: no backend → close client and return; dial failure →
the `except` block marks the selected backend unhealthy, then `finally`
decrements its counter and closes both ends; relay (whatever way it ends,
errors being swallowed by `forward_data` and `gather(return_exceptions=True)`)
→ `finally` decrements and closes both ends. -/
def LoadBalancer.handle_client (lb : LoadBalancer) (dial_ok : Bool)
    (c2s s2c : List ReadResult) : LoadBalancer × SessionResult :=
  match lb.get_next_server with
  | (none, lb1) =>
      (lb1, { forwarded_to_server := [], forwarded_to_client := [],
              client_closed := true, server_closed := true, marked_unhealthy := false })
  | (some j, lb1) =>
      if dial_ok then
        let lb2 := { lb1 with servers := modifyIdx Server.decrement_connections j lb1.servers }
        (lb2, { forwarded_to_server := forward_data lb.running c2s,
                forwarded_to_client := forward_data lb.running s2c,
                client_closed := true, server_closed := true, marked_unhealthy := false })
      else
        let marked := modifyIdx (fun s => { s with is_healthy := false }) j lb1.servers
        let lb2 := { lb1 with servers := modifyIdx Server.decrement_connections j marked }
        (lb2, { forwarded_to_server := [], forwarded_to_client := [],
                client_closed := true, server_closed := true, marked_unhealthy := true })

/-- Iterate `_round_robin` `n` times, collecting the selections. -/
def rrRun (lb : LoadBalancer) : Nat → List (Option Nat) × LoadBalancer
  | 0 => ([], lb)
  | n + 1 =>
      let sel := lb.round_robin
      let rest := rrRun sel.2 n
      (sel.1 :: rest.1, rest.2)

/-! ### Basic lemmas about the registry operations -/

lemma length_modifyIdx (f : Server → Server) (j : Nat) (ss : List Server) :
    (modifyIdx f j ss).length = ss.length := by
  induction ss generalizing j with
  | nil => cases j <;> rfl
  | cons s rest ih => cases j <;> simp [modifyIdx, ih]

lemma serverAt_modifyIdx_ne (f : Server → Server) {i j : Nat} (ss : List Server)
    (hij : i ≠ j) : serverAt (modifyIdx f j ss) i = serverAt ss i := by
  induction ss generalizing i j with
  | nil => cases j <;> rfl
  | cons s rest ih =>
      cases j with
      | zero =>
          cases i with
          | zero => exact absurd rfl hij
          | succ n => simp [modifyIdx, serverAt]
      | succ m =>
          cases i with
          | zero => simp [modifyIdx, serverAt]
          | succ n =>
              simp only [modifyIdx, serverAt, List.getD_cons_succ]
              exact ih (fun h => hij (by omega))

lemma serverAt_modifyIdx_self (f : Server → Server) {j : Nat} (ss : List Server)
    (hj : j < ss.length) : serverAt (modifyIdx f j ss) j = f (serverAt ss j) := by
  induction ss generalizing j with
  | nil => simp at hj
  | cons s rest ih =>
      cases j with
      | zero => simp [modifyIdx, serverAt]
      | succ m =>
          simp only [modifyIdx, serverAt, List.getD_cons_succ]
          exact ih (by simpa using hj)

lemma mem_healthyIdx (ss : List Server) (i : Nat) :
    i ∈ healthyIdx ss ↔ i < ss.length ∧ healthyAt ss i = true := by
  induction ss generalizing i with
  | nil => simp [healthyIdx]
  | cons s rest ih =>
      cases i with
      | zero =>
          by_cases hs : s.is_healthy <;>
            simp [healthyIdx, hs, healthyAt, serverAt]
      | succ n =>
          by_cases hs : s.is_healthy <;>
            simp [healthyIdx, hs, healthyAt, serverAt, ih, Nat.succ_lt_succ_iff]

lemma healthyIdx_sorted (ss : List Server) : (healthyIdx ss).Pairwise (· < ·) := by
  induction ss with
  | nil => simp [healthyIdx]
  | cons s rest ih =>
      by_cases hs : s.is_healthy <;> simp [healthyIdx, hs] <;>
        exact (List.pairwise_map.mpr (ih.imp (fun h => by omega)))

lemma healthyIdx_modifyIdx (f : Server → Server)
    (hf : ∀ s, (f s).is_healthy = s.is_healthy) (j : Nat) (ss : List Server) :
    healthyIdx (modifyIdx f j ss) = healthyIdx ss := by
  induction ss generalizing j with
  | nil => cases j <;> rfl
  | cons s rest ih =>
      cases j with
      | zero => simp [modifyIdx, healthyIdx, hf]
      | succ m => simp [modifyIdx, healthyIdx, ih]

lemma getD_mem_of_lt (l : List Nat) {r : Nat} (h : r < l.length) : l.getD r 0 ∈ l := by
  rw [List.getD_eq_get l 0 h]
  exact l.get_mem _ _

lemma sorted_getD_inj (l : List Nat) (hl : l.Pairwise (· < ·)) {r1 r2 : Nat}
    (h1 : r1 < l.length) (h2 : r2 < l.length) (he : l.getD r1 0 = l.getD r2 0) :
    r1 = r2 := by
  rw [List.getD_eq_get l 0 h1, List.getD_eq_get l 0 h2] at he
  rcases Nat.lt_trichotomy r1 r2 with h | h | h
  · have := List.pairwise_iff_get.mp hl ⟨r1, h1⟩ ⟨r2, h2⟩ h
    omega
  · exact h
  · have := List.pairwise_iff_get.mp hl ⟨r2, h2⟩ ⟨r1, h1⟩ h
    omega

/-! ### Selection characterizations -/

lemma argminActive_eq_none (ss : List Server) (l : List Nat) :
    argminActive ss l = none ↔ l = [] := by
  cases l with
  | nil => simp [argminActive]
  | cons i rest =>
      simp only [argminActive]
      cases argminActive ss rest <;> simp <;> split <;> simp

/-- Python `min` semantics: `argminActive` returns a member of the list whose
active count is minimal, and on ties the earliest (for a strictly sorted index
list, the numerically smallest) one. -/
lemma argminActive_spec (ss : List Server) (l : List Nat) (hne : l ≠ [])
    (hsort : l.Pairwise (· < ·)) :
    ∃ j, argminActive ss l = some j ∧ j ∈ l ∧
      (∀ i ∈ l, activeAt ss j ≤ activeAt ss i) ∧
      (∀ i ∈ l, activeAt ss i = activeAt ss j → j ≤ i) := by
  induction l with
  | nil => exact absurd rfl hne
  | cons i rest ih =>
      cases rest with
      | nil =>
          refine ⟨i, by simp [argminActive], by simp, ?_, ?_⟩ <;> simp
      | cons i2 r2 =>
          obtain ⟨j, hj, hmem, hmin, hties⟩ :=
            ih (by simp) (List.Pairwise.of_cons hsort)
          have hstep : argminActive ss (i :: i2 :: r2) =
              match argminActive ss (i2 :: r2) with
              | none => some i
              | some j0 => if activeAt ss j0 < activeAt ss i then some j0 else some i := rfl
          by_cases hlt : activeAt ss j < activeAt ss i
          · refine ⟨j, ?_, List.mem_cons_of_mem i hmem, ?_, ?_⟩
            · rw [hstep, hj]
              exact if_pos hlt
            · intro x hx
              rcases List.mem_cons.mp hx with rfl | hx
              · exact le_of_lt hlt
              · exact hmin x hx
            · intro x hx hties2
              rcases List.mem_cons.mp hx with rfl | hx
              · omega
              · exact hties x hx hties2
          · refine ⟨i, ?_, List.mem_cons_self i _, ?_, ?_⟩
            · rw [hstep, hj]
              exact if_neg hlt
            · intro x hx
              rcases List.mem_cons.mp hx with rfl | hx
              · exact le_refl _
              · exact le_trans (by omega) (hmin x hx)
            · intro x hx _
              rcases List.mem_cons.mp hx with rfl | hx
              · exact le_refl _
              · exact le_of_lt ((List.pairwise_cons.mp hsort).1 x hx)

lemma round_robin_of_no_healthy (lb : LoadBalancer)
    (h : healthyIdx lb.servers = []) : lb.round_robin = (none, lb) := by
  simp [LoadBalancer.round_robin, h]

lemma round_robin_of_healthy (lb : LoadBalancer)
    (hk : 0 < (healthyIdx lb.servers).length) :
    lb.round_robin =
      (some ((healthyIdx lb.servers).getD
          (lb.current_server_index % (healthyIdx lb.servers).length) 0),
        { lb with
          servers := modifyIdx Server.increment_connections
            ((healthyIdx lb.servers).getD
              (lb.current_server_index % (healthyIdx lb.servers).length) 0) lb.servers,
          current_server_index := lb.current_server_index + 1 }) := by
  rw [LoadBalancer.round_robin]
  simp only [if_neg (by omega : ¬ (healthyIdx lb.servers).length = 0)]

lemma least_connections_of_no_healthy (lb : LoadBalancer)
    (h : healthyIdx lb.servers = []) : lb.least_connections = (none, lb) := by
  simp [LoadBalancer.least_connections, h, argminActive]

lemma increment_preserves_health (s : Server) :
    (Server.increment_connections s).is_healthy = s.is_healthy := rfl

lemma healthyIdx_after_round_robin (lb : LoadBalancer) :
    healthyIdx lb.round_robin.2.servers = healthyIdx lb.servers := by
  by_cases h : (healthyIdx lb.servers).length = 0
  · rw [round_robin_of_no_healthy lb (List.length_eq_zero.mp h)]
  · rw [round_robin_of_healthy lb (by omega)]
    exact healthyIdx_modifyIdx _ increment_preserves_health _ _

/-- Whenever either strategy selects, the selected index is a healthy position
and the post-state registry is the pre-state with that position reserved. -/
lemma get_next_server_some (lb : LoadBalancer) (j : Nat) (lb1 : LoadBalancer)
    (h : lb.get_next_server = (some j, lb1)) :
    j ∈ healthyIdx lb.servers ∧
      lb1.servers = modifyIdx Server.increment_connections j lb.servers ∧
      lb1.algorithm = lb.algorithm ∧ lb1.running = lb.running := by
  cases halg : lb.algorithm with
  | round_robin =>
      rw [LoadBalancer.get_next_server, halg] at h
      by_cases hk : (healthyIdx lb.servers).length = 0
      · rw [round_robin_of_no_healthy lb (List.length_eq_zero.mp hk)] at h
        simp at h
      · rw [round_robin_of_healthy lb (by omega)] at h
        injection h with h1 h2
        injection h1 with h1
        subst h1
        subst h2
        refine ⟨getD_mem_of_lt _ (Nat.mod_lt _ (by omega)), rfl, halg, rfl⟩
  | least_connections =>
      rw [LoadBalancer.get_next_server, halg, LoadBalancer.least_connections] at h
      cases ham : argminActive lb.servers (healthyIdx lb.servers) with
      | none => rw [ham] at h; simp at h
      | some j2 =>
          rw [ham] at h
          injection h with h1 h2
          injection h1 with h1
          subst h1
          subst h2
          have hne : healthyIdx lb.servers ≠ [] := by
            intro hnil
            rw [hnil] at ham
            simp [argminActive] at ham
          obtain ⟨j3, hj3, hmem, -, -⟩ :=
            argminActive_spec lb.servers _ hne (healthyIdx_sorted lb.servers)
          rw [ham] at hj3
          obtain rfl : j2 = j3 := by simpa using hj3
          exact ⟨hmem, rfl, halg, rfl⟩

/-- Whenever either strategy returns no backend, the state is unchanged and
there is indeed no healthy backend. -/
lemma get_next_server_none (lb : LoadBalancer) (lb1 : LoadBalancer)
    (h : lb.get_next_server = (none, lb1)) :
    lb1 = lb ∧ healthyIdx lb.servers = [] := by
  cases halg : lb.algorithm with
  | round_robin =>
      rw [LoadBalancer.get_next_server, halg] at h
      by_cases hk : (healthyIdx lb.servers).length = 0
      · rw [round_robin_of_no_healthy lb (List.length_eq_zero.mp hk)] at h
        exact ⟨by simpa [Prod.ext_iff] using h.symm, List.length_eq_zero.mp hk⟩
      · rw [round_robin_of_healthy lb (by omega)] at h
        simp at h
  | least_connections =>
      rw [LoadBalancer.get_next_server, halg, LoadBalancer.least_connections] at h
      cases ham : argminActive lb.servers (healthyIdx lb.servers) with
      | none =>
          rw [ham] at h
          exact ⟨by simpa [Prod.ext_iff] using h.symm,
            (argminActive_eq_none _ _).mp ham⟩
      | some j2 => rw [ham] at h; simp at h

/-! ### Round-robin iteration and selection counting -/

/-- Occurrences of residue `r` among `(c + t) % k` for `t < N`: how often a
round-robin run of length `N` starting at cursor `c` lands on healthy slot `r`. -/
def countRes (c N k r : Nat) : Nat :=
  ((List.range N).filter (fun t => (c + t) % k = r)).length

lemma countRes_succ (c N k r : Nat) :
    countRes c (N + 1) k r = countRes c N k r + (if (c + N) % k = r then 1 else 0) := by
  simp only [countRes, List.range_succ, List.filter_append, List.length_append]
  split <;> simp_all

lemma mod_shift (k c r N : Nat) (hk : 0 < k) (hr : r < k) :
    ((c + N) % k = r) ↔ (N % k = (r + (k - c % k)) % k) := by
  have hck : c % k < k := Nat.mod_lt _ hk
  have hDk : (r + (k - c % k)) % k % k = (r + (k - c % k)) % k :=
    Nat.mod_mod_of_dvd _ (dvd_refl k)
  have hcd : (c + (r + (k - c % k)) % k) % k = r % k := by
    calc (c + (r + (k - c % k)) % k) % k
        = (c + (r + (k - c % k))) % k := Nat.add_mod_mod _ _ _
      _ = (c % k + (r + (k - c % k))) % k := (Nat.mod_add_mod _ _ _).symm
      _ = (r + k) % k := by congr 1; omega
      _ = r % k := Nat.add_mod_right r k
  constructor
  · intro h
    have h1 : (c + N) % k = (c + (r + (k - c % k)) % k) % k := by
      rw [h, hcd, Nat.mod_eq_of_lt hr]
    have h2 : N ≡ (r + (k - c % k)) % k [MOD k] :=
      Nat.ModEq.add_left_cancel' c h1
    exact Eq.trans h2 hDk
  · intro h
    have hm : N ≡ (r + (k - c % k)) % k [MOD k] := by
      show N % k = (r + (k - c % k)) % k % k
      rw [h, hDk]
    have h1 : c + N ≡ c + (r + (k - c % k)) % k [MOD k] := Nat.ModEq.add_left c hm
    calc (c + N) % k = (c + (r + (k - c % k)) % k) % k := h1
      _ = r % k := hcd
      _ = r := Nat.mod_eq_of_lt hr

lemma mod_eq_iff_dvd_add (k d N : Nat) (hk : 0 < k) (hd : d < k) :
    (N % k = d) ↔ k ∣ (N + (k - d)) := by
  have hmod := Nat.div_add_mod N k
  constructor
  · intro h
    refine ⟨N / k + 1, ?_⟩
    have : N + (k - d) = k * (N / k) + k := by omega
    rw [this, Nat.mul_add, Nat.mul_one]
  · intro h
    have hdd : k ∣ (k * (N / k)) := Dvd.intro _ rfl
    have h2 : k ∣ (N % k + (k - d)) := by
      have : N + (k - d) = k * (N / k) + (N % k + (k - d)) := by omega
      rw [this] at h
      exact (Nat.dvd_add_right hdd).mp h
    obtain ⟨m, hm⟩ := h2
    have hr : N % k < k := Nat.mod_lt _ hk
    rcases m with _ | _ | m
    · omega
    · omega
    · exfalso
      have : k * (m + 1 + 1) = k * m + k + k := by ring
      omega

lemma countRes_formula (c k r : Nat) (hk : 0 < k) (hr : r < k) (N : Nat) :
    countRes c N k r = (N + (k - 1 - (r + (k - c % k)) % k)) / k := by
  have hd : (r + (k - c % k)) % k < k := Nat.mod_lt _ hk
  induction N with
  | zero =>
      rw [show countRes c 0 k r = 0 from rfl, Nat.zero_add, Nat.div_eq_of_lt (by omega)]
  | succ n ih =>
      rw [countRes_succ, ih]
      have key : ((c + n) % k = r) ↔ k ∣ (n + (k - 1 - (r + (k - c % k)) % k) + 1) := by
        rw [show n + (k - 1 - (r + (k - c % k)) % k) + 1
              = n + (k - (r + (k - c % k)) % k) by omega,
          mod_shift k c r n hk hr]
        exact mod_eq_iff_dvd_add k _ n hk hd
      rw [show n + 1 + (k - 1 - (r + (k - c % k)) % k)
            = (n + (k - 1 - (r + (k - c % k)) % k)) + 1 by omega,
        Nat.succ_div]
      by_cases hc : (c + n) % k = r
      · rw [if_pos hc, if_pos (key.mp hc)]
      · rw [if_neg hc, if_neg (fun hdvd => hc (key.mpr hdvd))]

/-- Every residue class is hit `⌊N/k⌋` or `⌈N/k⌉ = (N + k - 1)/k` times in a
window of `N` consecutive cursor values. -/
lemma countRes_floor_or_ceil (c k r N : Nat) (hk : 0 < k) (hr : r < k) :
    countRes c N k r = N / k ∨ countRes c N k r = (N + k - 1) / k := by
  rw [countRes_formula c k r hk hr N]
  have hd : (r + (k - c % k)) % k < k := Nat.mod_lt _ hk
  have h1 : N / k ≤ (N + (k - 1 - (r + (k - c % k)) % k)) / k :=
    Nat.div_le_div_right (by omega)
  have h2 : (N + (k - 1 - (r + (k - c % k)) % k)) / k ≤ (N + k - 1) / k :=
    Nat.div_le_div_right (by omega)
  have h3 : (N + k - 1) / k ≤ N / k + 1 := by
    calc (N + k - 1) / k ≤ (N + k) / k := Nat.div_le_div_right (by omega)
      _ = N / k + 1 := Nat.add_div_right N hk
  omega

/-- The selections of an `N`-step round-robin run over a fixed healthy set:
step `t` picks the healthy slot `(cursor + t) mod k`. -/
lemma rrRun_sels (N : Nat) :
    ∀ (lb : LoadBalancer), 0 < (healthyIdx lb.servers).length →
      (rrRun lb N).1 = (List.range N).map
        (fun t => some ((healthyIdx lb.servers).getD
          ((lb.current_server_index + t) % (healthyIdx lb.servers).length) 0)) := by
  induction N with
  | zero => intro lb _; rfl
  | succ n ih =>
      intro lb hk
      have hrr := round_robin_of_healthy lb hk
      have hpres := healthyIdx_after_round_robin lb
      have hcur : lb.round_robin.2.current_server_index = lb.current_server_index + 1 := by
        rw [hrr]
      have hfst : lb.round_robin.1 = some ((healthyIdx lb.servers).getD
          (lb.current_server_index % (healthyIdx lb.servers).length) 0) := by
        rw [hrr]
      show lb.round_robin.1 :: (rrRun lb.round_robin.2 n).1 = _
      rw [ih lb.round_robin.2 (by rw [hpres]; exact hk), hpres, hcur, hfst,
        List.range_succ_eq_map, List.map_cons, List.map_map]
      refine congrArg₂ _ (by rw [Nat.add_zero]) ?_
      refine List.map_congr_left (fun t _ => ?_)
      simp only [Function.comp_apply]
      rw [show lb.current_server_index + 1 + t
            = lb.current_server_index + Nat.succ t by omega]

/-- How often the run selects the healthy slot `r` is the residue count. -/
lemma rrRun_count (lb : LoadBalancer) (N r : Nat)
    (hk : 0 < (healthyIdx lb.servers).length)
    (hr : r < (healthyIdx lb.servers).length) :
    ((rrRun lb N).1.filter
        (fun o => o = some ((healthyIdx lb.servers).getD r 0))).length
      = countRes lb.current_server_index N (healthyIdx lb.servers).length r := by
  rw [rrRun_sels N lb hk, countRes, ← List.countP_eq_length_filter,
    ← List.countP_eq_length_filter, List.countP_map]
  refine List.countP_congr (fun t _ => ?_)
  simp only [Function.comp_apply, decide_eq_true_eq, Option.some.injEq]
  constructor
  · intro h
    exact sorted_getD_inj _ (healthyIdx_sorted lb.servers)
      (Nat.mod_lt _ (by omega)) hr h
  · intro h
    rw [h]

/-! ### Concrete scenario states from the spec -/

/-- Three healthy backends A, B, C under round-robin, cursor at 0 (the spec's
round-robin scenario; the source configures three servers the same way). -/
def lbABC : LoadBalancer :=
  { algorithm := .round_robin, listen_port := 18860,
    servers := [Server.init "server1" 18861 "A" 0, Server.init "server2" 18861 "B" 0,
                Server.init "server3" 18861 "C" 0],
    current_server_index := 0, running := true }

/-- Three healthy backends with active counts A=2, B=0, C=1 under
least-connections (the spec's least-connections scenario). -/
def lbLC : LoadBalancer :=
  { algorithm := .least_connections, listen_port := 18860,
    servers := [{ Server.init "server1" 18861 "A" 0 with active_connections := 2 },
                { Server.init "server2" 18861 "B" 0 with active_connections := 0 },
                { Server.init "server3" 18861 "C" 0 with active_connections := 1 }],
    current_server_index := 0, running := true }

/-! ### Claim theorems -/

/-- C1: over any `N` consecutive round-robin selections with a fixed nonempty
healthy set of size `k`, step `t` selects the healthy slot `(cursor + t) mod k`
(configuration order with wraparound), a single selection picks slot
`cursor mod k` and then increments the cursor by one, each healthy backend is
selected `⌊N/k⌋` or `⌈N/k⌉` times, and with 3 healthy backends A, B, C and
cursor 0, 7 selections yield A,B,C,A,B,C,A. -/
theorem claim_C1 (lb : LoadBalancer) (N : Nat)
    (hk : 0 < (healthyIdx lb.servers).length) :
    ((rrRun lb N).1 = (List.range N).map
        (fun t => some ((healthyIdx lb.servers).getD
          ((lb.current_server_index + t) % (healthyIdx lb.servers).length) 0)))
    ∧ (lb.round_robin.1 = some ((healthyIdx lb.servers).getD
          (lb.current_server_index % (healthyIdx lb.servers).length) 0)
        ∧ lb.round_robin.2.current_server_index = lb.current_server_index + 1)
    ∧ (∀ r, r < (healthyIdx lb.servers).length →
        ((rrRun lb N).1.filter
            (fun o => o = some ((healthyIdx lb.servers).getD r 0))).length
            = N / (healthyIdx lb.servers).length
          ∨ ((rrRun lb N).1.filter
            (fun o => o = some ((healthyIdx lb.servers).getD r 0))).length
            = (N + (healthyIdx lb.servers).length - 1) / (healthyIdx lb.servers).length)
    ∧ ((rrRun lbABC 7).1.map (fun o => o.map (nameAt lbABC.servers))
        = [some "A", some "B", some "C", some "A", some "B", some "C", some "A"]) := by
  refine ⟨rrRun_sels N lb hk, ⟨?_, ?_⟩, ?_, by decide⟩
  · rw [round_robin_of_healthy lb hk]
  · rw [round_robin_of_healthy lb hk]
  · intro r hr
    rw [rrRun_count lb N r hk hr]
    have := countRes_floor_or_ceil lb.current_server_index
      (healthyIdx lb.servers).length r N hk hr
    omega

/-- Witness for C1: the hypothesis holds at the concrete A,B,C state, and the
instantiated concrete conjunct is exactly the spec's 7-selection sequence. -/
theorem claim_C1_witness :
    0 < (healthyIdx lbABC.servers).length ∧
    ((rrRun lbABC 7).1.map (fun o => o.map (nameAt lbABC.servers))
      = [some "A", some "B", some "C", some "A", some "B", some "C", some "A"]) :=
  ⟨by decide, (claim_C1 lbABC 7 (by decide)).2.2.2⟩

/-! ### Session and health-cycle lemmas -/

lemma modifyIdx_out_of_range (f : Server → Server) :
    ∀ (j : Nat) (ss : List Server), ss.length ≤ j → modifyIdx f j ss = ss := by
  intro j ss
  induction ss generalizing j with
  | nil => intro _; cases j <;> rfl
  | cons s rest ih =>
      intro hj
      cases j with
      | zero => simp at hj
      | succ m => simp only [modifyIdx]; rw [ih m (by simpa using hj)]

/-- Any per-server field untouched by `f` is untouched by `modifyIdx f`. -/
lemma field_modifyIdx {γ : Type} (g : Server → γ) (f : Server → Server)
    (hf : ∀ s, g (f s) = g s) :
    ∀ (j : Nat) (ss : List Server) (i : Nat),
      g (serverAt (modifyIdx f j ss) i) = g (serverAt ss i) := by
  intro j ss
  induction ss generalizing j with
  | nil => intro i; cases j <;> rfl
  | cons s rest ih =>
      intro i
      cases j with
      | zero =>
          cases i with
          | zero => simpa [modifyIdx, serverAt] using hf s
          | succ n => simp [modifyIdx, serverAt]
      | succ m =>
          cases i with
          | zero => simp [modifyIdx, serverAt]
          | succ n =>
              simp only [modifyIdx, serverAt, List.getD_cons_succ]
              exact ih m n

lemma handle_client_of_none (lb lb1 : LoadBalancer) (d : Bool) (c2s s2c : List ReadResult)
    (h : lb.get_next_server = (none, lb1)) :
    lb.handle_client d c2s s2c =
      (lb1, { forwarded_to_server := [], forwarded_to_client := [],
              client_closed := true, server_closed := true, marked_unhealthy := false }) := by
  simp only [LoadBalancer.handle_client, h]

lemma handle_client_of_some_dial_ok (lb lb1 : LoadBalancer) (j : Nat)
    (c2s s2c : List ReadResult) (h : lb.get_next_server = (some j, lb1)) :
    lb.handle_client true c2s s2c =
      ({ lb1 with servers := modifyIdx Server.decrement_connections j lb1.servers },
       { forwarded_to_server := forward_data lb.running c2s,
         forwarded_to_client := forward_data lb.running s2c,
         client_closed := true, server_closed := true, marked_unhealthy := false }) := by
  simp only [LoadBalancer.handle_client, h, if_pos]

lemma handle_client_of_some_dial_fail (lb lb1 : LoadBalancer) (j : Nat)
    (c2s s2c : List ReadResult) (h : lb.get_next_server = (some j, lb1)) :
    lb.handle_client false c2s s2c =
      ({ lb1 with servers := (modifyIdx Server.decrement_connections j
            (modifyIdx (fun s => { s with is_healthy := false }) j lb1.servers)) },
       { forwarded_to_server := [], forwarded_to_client := [],
         client_closed := true, server_closed := true, marked_unhealthy := true }) := by
  simp only [LoadBalancer.handle_client, h, Bool.false_eq_true, if_false]

lemma applyHealthResults_length (now : Nat) :
    ∀ (ss : List Server) (rs : List GatherResult),
      (applyHealthResults now ss rs).length = ss.length := by
  intro ss
  induction ss with
  | nil => intro rs; cases rs <;> rfl
  | cons s rest ih =>
      intro rs
      cases rs with
      | nil => rfl
      | cons r rs2 => simp [applyHealthResults, ih]

lemma applyHealthResults_preserves (now : Nat) :
    ∀ (ss : List Server) (rs : List GatherResult) (i : Nat),
      nameAt (applyHealthResults now ss rs) i = nameAt ss i
      ∧ hostAt (applyHealthResults now ss rs) i = hostAt ss i
      ∧ portAt (applyHealthResults now ss rs) i = portAt ss i
      ∧ activeAt (applyHealthResults now ss rs) i = activeAt ss i
      ∧ totalAt (applyHealthResults now ss rs) i = totalAt ss i := by
  intro ss
  induction ss with
  | nil => intro rs i; cases rs <;> exact ⟨rfl, rfl, rfl, rfl, rfl⟩
  | cons s rest ih =>
      intro rs i
      cases rs with
      | nil => exact ⟨rfl, rfl, rfl, rfl, rfl⟩
      | cons r rs2 =>
          cases i with
          | zero =>
              simp [applyHealthResults, nameAt, hostAt, portAt, activeAt, totalAt, serverAt]
          | succ n =>
              simpa [applyHealthResults, nameAt, hostAt, portAt, activeAt, totalAt,
                serverAt] using ih rs2 n

lemma applyHealthResults_healthyAt (now : Nat) :
    ∀ (ss : List Server) (rs : List GatherResult) (i : Nat),
      i < ss.length → i < rs.length →
        healthyAt (applyHealthResults now ss rs) i = coerceResult (rs.getD i default)
        ∧ lastCheckAt (applyHealthResults now ss rs) i = now := by
  intro ss
  induction ss with
  | nil => intro rs i hi; simp at hi
  | cons s rest ih =>
      intro rs i hi hir
      cases rs with
      | nil => simp at hir
      | cons r rs2 =>
          cases i with
          | zero => simp [applyHealthResults, healthyAt, lastCheckAt, serverAt]
          | succ n =>
              simpa [applyHealthResults, healthyAt, lastCheckAt, serverAt] using
                ih rs2 n (by simpa using hi) (by simpa using hir)

lemma getD_map_of_lt {α β : Type} (f : α → β) (l : List α) (i : Nat)
    (hi : i < l.length) (d : β) (d2 : α) : (l.map f).getD i d = f (l.getD i d2) := by
  rw [List.getD_eq_getElem _ _ (by simpa using hi), List.getD_eq_getElem _ _ hi,
    List.getElem_map]

lemma round_robin_mem (lb : LoadBalancer) (j : Nat) (h : lb.round_robin.1 = some j) :
    j ∈ healthyIdx lb.servers := by
  by_cases hk : (healthyIdx lb.servers).length = 0
  · rw [round_robin_of_no_healthy lb (List.length_eq_zero.mp hk)] at h
    simp at h
  · rw [round_robin_of_healthy lb (by omega)] at h
    obtain rfl : _ = j := Option.some.inj h
    exact getD_mem_of_lt _ (Nat.mod_lt _ (by omega))

lemma least_connections_mem (lb : LoadBalancer) (j : Nat)
    (h : lb.least_connections.1 = some j) : j ∈ healthyIdx lb.servers := by
  rw [LoadBalancer.least_connections] at h
  cases ham : argminActive lb.servers (healthyIdx lb.servers) with
  | none => rw [ham] at h; simp at h
  | some j2 =>
      rw [ham] at h
      obtain rfl : j2 = j := Option.some.inj h
      have hne : healthyIdx lb.servers ≠ [] := by
        intro hnil
        rw [hnil] at ham
        simp [argminActive] at ham
      obtain ⟨j3, hj3, hmem, -, -⟩ :=
        argminActive_spec lb.servers _ hne (healthyIdx_sorted lb.servers)
      rw [ham] at hj3
      obtain rfl : j2 = j3 := by simpa using hj3
      exact hmem

lemma get_next_server_mem (lb : LoadBalancer) (j : Nat)
    (h : lb.get_next_server.1 = some j) : j ∈ healthyIdx lb.servers := by
  cases halg : lb.algorithm with
  | round_robin =>
      rw [LoadBalancer.get_next_server, halg] at h
      exact round_robin_mem lb j h
  | least_connections =>
      rw [LoadBalancer.get_next_server, halg] at h
      exact least_connections_mem lb j h

lemma serverAt_mem (ss : List Server) (i : Nat) (hi : i < ss.length) :
    serverAt ss i ∈ ss := by
  rw [serverAt, List.getD_eq_getElem _ _ hi]
  exact List.getElem_mem _

lemma activeAt_nonneg_of (ss : List Server)
    (h : ∀ s ∈ ss, (0:Int) ≤ s.active_connections) (i : Nat) : 0 ≤ activeAt ss i := by
  by_cases hi : i < ss.length
  · exact h _ (serverAt_mem ss i hi)
  · rw [activeAt, serverAt, List.getD_eq_default _ _ (by omega)]
    norm_num [default]

/-- C2: with at least one healthy backend, least-connections selection returns
a healthy backend whose active-connection counter is minimal among the healthy
ones, and on ties the one with the smallest configuration index; concretely,
with counts A=2, B=0, C=1 it returns B, the reservation makes the counts
2,1,1, and the next selection again returns B over the tied C. -/
theorem claim_C2 (lb : LoadBalancer) (hk : 0 < (healthyIdx lb.servers).length) :
    (∃ j, lb.least_connections.1 = some j ∧ j ∈ healthyIdx lb.servers ∧
      (∀ i ∈ healthyIdx lb.servers, activeAt lb.servers j ≤ activeAt lb.servers i) ∧
      (∀ i ∈ healthyIdx lb.servers, activeAt lb.servers i = activeAt lb.servers j → j ≤ i))
    ∧ lbLC.least_connections.1 = some 1
    ∧ (activeAt lbLC.least_connections.2.servers 0 = 2
        ∧ activeAt lbLC.least_connections.2.servers 1 = 1
        ∧ activeAt lbLC.least_connections.2.servers 2 = 1)
    ∧ lbLC.least_connections.2.least_connections.1 = some 1 := by
  refine ⟨?_, by decide, ⟨by decide, by decide, by decide⟩, by decide⟩
  have hne : healthyIdx lb.servers ≠ [] := by
    intro hnil
    rw [hnil] at hk
    simp at hk
  obtain ⟨j, hj, hmem, hmin, hties⟩ :=
    argminActive_spec lb.servers _ hne (healthyIdx_sorted lb.servers)
  refine ⟨j, ?_, hmem, hmin, hties⟩
  rw [LoadBalancer.least_connections, hj]

/-- Witness for C2 at the concrete A=2, B=0, C=1 state. -/
theorem claim_C2_witness :
    0 < (healthyIdx lbLC.servers).length ∧ lbLC.least_connections.1 = some 1 :=
  ⟨by decide, (claim_C2 lbLC (by decide)).2.1⟩

/-- C3: each session increments the selected backend's active counter exactly
once at selection and decrements it exactly once at teardown, on every path
(no backend, dial failure, relay of any outcome): after `handle_client` every
active counter equals its pre-session value, counters stay non-negative, and
mid-session the selected backend's counter is exactly one above its
pre-session value while all others are unchanged. -/
theorem claim_C3 (lb : LoadBalancer) (dial_ok : Bool) (c2s s2c : List ReadResult)
    (hpre : ∀ s ∈ lb.servers, (0:Int) ≤ s.active_connections) :
    (∀ i, activeAt (lb.handle_client dial_ok c2s s2c).1.servers i = activeAt lb.servers i)
    ∧ (∀ i, 0 ≤ activeAt (lb.handle_client dial_ok c2s s2c).1.servers i)
    ∧ (∀ j lb1, lb.get_next_server = (some j, lb1) →
        activeAt lb1.servers j = activeAt lb.servers j + 1
        ∧ (∀ i, i ≠ j → activeAt lb1.servers i = activeAt lb.servers i)
        ∧ (∀ i, 0 ≤ activeAt lb1.servers i)) := by
  have hmid : ∀ j lb1, lb.get_next_server = (some j, lb1) →
      activeAt lb1.servers j = activeAt lb.servers j + 1
      ∧ (∀ i, i ≠ j → activeAt lb1.servers i = activeAt lb.servers i) := by
    intro j lb1 hsel
    obtain ⟨hmem, hsrv, -, -⟩ := get_next_server_some lb j lb1 hsel
    have hjlen : j < lb.servers.length := ((mem_healthyIdx _ _).mp hmem).1
    constructor
    · rw [activeAt, hsrv, serverAt_modifyIdx_self _ _ hjlen]
      rfl
    · intro i hij
      rw [activeAt, hsrv, serverAt_modifyIdx_ne _ _ hij, activeAt]
  have hmain : ∀ i,
      activeAt (lb.handle_client dial_ok c2s s2c).1.servers i = activeAt lb.servers i := by
    intro i
    rcases hsel : lb.get_next_server with ⟨o, lb1⟩
    cases o with
    | none =>
        obtain ⟨heq, -⟩ := get_next_server_none lb lb1 hsel
        rw [handle_client_of_none lb lb1 dial_ok c2s s2c hsel, heq]
    | some j =>
        obtain ⟨hmem, hsrv, -, -⟩ := get_next_server_some lb j lb1 hsel
        have hjlen : j < lb.servers.length := ((mem_healthyIdx _ _).mp hmem).1
        have hjlen1 : j < lb1.servers.length := by
          rw [hsrv, length_modifyIdx]
          exact hjlen
        by_cases hij : i = j
        · subst hij
          cases dial_ok
          · rw [handle_client_of_some_dial_fail lb lb1 i c2s s2c hsel]
            show activeAt (modifyIdx Server.decrement_connections i
              (modifyIdx (fun s => { s with is_healthy := false }) i lb1.servers)) i = _
            rw [activeAt, serverAt_modifyIdx_self _ _ (by rw [length_modifyIdx]; exact hjlen1),
              serverAt_modifyIdx_self _ _ hjlen1, hsrv, serverAt_modifyIdx_self _ _ hjlen]
            simp [Server.decrement_connections, Server.increment_connections, activeAt]
          · rw [handle_client_of_some_dial_ok lb lb1 i c2s s2c hsel]
            show activeAt (modifyIdx Server.decrement_connections i lb1.servers) i = _
            rw [activeAt, serverAt_modifyIdx_self _ _ hjlen1, hsrv,
              serverAt_modifyIdx_self _ _ hjlen]
            simp [Server.decrement_connections, Server.increment_connections, activeAt]
        · cases dial_ok
          · rw [handle_client_of_some_dial_fail lb lb1 j c2s s2c hsel]
            show activeAt (modifyIdx Server.decrement_connections j
              (modifyIdx (fun s => { s with is_healthy := false }) j lb1.servers)) i = _
            rw [activeAt, serverAt_modifyIdx_ne _ _ hij, serverAt_modifyIdx_ne _ _ hij,
              hsrv, serverAt_modifyIdx_ne _ _ hij, activeAt]
          · rw [handle_client_of_some_dial_ok lb lb1 j c2s s2c hsel]
            show activeAt (modifyIdx Server.decrement_connections j lb1.servers) i = _
            rw [activeAt, serverAt_modifyIdx_ne _ _ hij, hsrv,
              serverAt_modifyIdx_ne _ _ hij, activeAt]
  refine ⟨hmain, ?_, ?_⟩
  · intro i
    rw [hmain i]
    exact activeAt_nonneg_of lb.servers hpre i
  · intro j lb1 hsel
    obtain ⟨h1, h2⟩ := hmid j lb1 hsel
    refine ⟨h1, h2, ?_⟩
    intro i
    by_cases hij : i = j
    · subst hij
      have := activeAt_nonneg_of lb.servers hpre i
      omega
    · rw [h2 i hij]
      exact activeAt_nonneg_of lb.servers hpre i

/-- Witness for C3 at the concrete A,B,C state with a dial-ok empty relay. -/
theorem claim_C3_witness :
    (∀ s ∈ lbABC.servers, (0:Int) ≤ s.active_connections) ∧
      activeAt (lbABC.handle_client true [] []).1.servers 0 = activeAt lbABC.servers 0 :=
  ⟨by decide, (claim_C3 lbABC true [] [] (by decide)).1 0⟩

/-- C5: when a backend was selected but the dial fails, `handle_client` marks
exactly that backend unhealthy, closes the client, forwards nothing, and
touches no other backend — in particular it does not retry a different
backend in the same session (only the selected backend's request counter
advances, by one). -/
theorem claim_C5 (lb lb1 : LoadBalancer) (j : Nat) (c2s s2c : List ReadResult)
    (hsel : lb.get_next_server = (some j, lb1)) :
    healthyAt (lb.handle_client false c2s s2c).1.servers j = false
    ∧ (lb.handle_client false c2s s2c).2.client_closed = true
    ∧ (lb.handle_client false c2s s2c).2.marked_unhealthy = true
    ∧ (lb.handle_client false c2s s2c).2.forwarded_to_server = []
    ∧ (lb.handle_client false c2s s2c).2.forwarded_to_client = []
    ∧ (∀ i, i ≠ j → serverAt (lb.handle_client false c2s s2c).1.servers i
        = serverAt lb.servers i)
    ∧ totalAt (lb.handle_client false c2s s2c).1.servers j = totalAt lb.servers j + 1 := by
  obtain ⟨hmem, hsrv, -, -⟩ := get_next_server_some lb j lb1 hsel
  have hjlen : j < lb.servers.length := ((mem_healthyIdx _ _).mp hmem).1
  have hjlen1 : j < lb1.servers.length := by
    rw [hsrv, length_modifyIdx]
    exact hjlen
  rw [handle_client_of_some_dial_fail lb lb1 j c2s s2c hsel]
  refine ⟨?_, rfl, rfl, rfl, rfl, ?_, ?_⟩
  · show healthyAt (modifyIdx Server.decrement_connections j
      (modifyIdx (fun s => { s with is_healthy := false }) j lb1.servers)) j = false
    rw [healthyAt, serverAt_modifyIdx_self _ _ (by rw [length_modifyIdx]; exact hjlen1),
      serverAt_modifyIdx_self _ _ hjlen1]
    rfl
  · intro i hij
    show serverAt (modifyIdx Server.decrement_connections j
      (modifyIdx (fun s => { s with is_healthy := false }) j lb1.servers)) i = _
    rw [serverAt_modifyIdx_ne _ _ hij, serverAt_modifyIdx_ne _ _ hij, hsrv,
      serverAt_modifyIdx_ne _ _ hij]
  · show totalAt (modifyIdx Server.decrement_connections j
      (modifyIdx (fun s => { s with is_healthy := false }) j lb1.servers)) j = _
    rw [totalAt, serverAt_modifyIdx_self _ _ (by rw [length_modifyIdx]; exact hjlen1),
      serverAt_modifyIdx_self _ _ hjlen1, hsrv, serverAt_modifyIdx_self _ _ hjlen]
    rfl

/-- Witness for C5: a concrete dial failure on the A,B,C state marks the
selected backend A unhealthy. -/
theorem claim_C5_witness :
    lbABC.get_next_server = (some 0, lbABC.get_next_server.2) ∧
      healthyAt (lbABC.handle_client false [] []).1.servers 0 = false :=
  ⟨by decide, (claim_C5 lbABC lbABC.get_next_server.2 0 [] [] (by decide)).1⟩

/-- C6: in an established session (dial succeeded), however the relay ends —
EOF or I/O error on either direction — the session is torn down with both
endpoints closed, every backend's health flag and active counter return to
their pre-session values, no backend is marked unhealthy, and the resulting
registry does not depend on the relay traces at all; concretely, a backend
reset (`ioError`) during relay on the A,B,C state leaves A healthy with 0
active connections. -/
theorem claim_C6 (lb lb1 : LoadBalancer) (j : Nat) (c2s s2c : List ReadResult)
    (hsel : lb.get_next_server = (some j, lb1)) :
    (∀ i, healthyAt (lb.handle_client true c2s s2c).1.servers i = healthyAt lb.servers i)
    ∧ (∀ i, activeAt (lb.handle_client true c2s s2c).1.servers i = activeAt lb.servers i)
    ∧ (lb.handle_client true c2s s2c).2.client_closed = true
    ∧ (lb.handle_client true c2s s2c).2.server_closed = true
    ∧ (lb.handle_client true c2s s2c).2.marked_unhealthy = false
    ∧ (lb.handle_client true c2s s2c).1 = (lb.handle_client true [] []).1
    ∧ (activeAt (lbABC.handle_client true [ReadResult.ioError] []).1.servers 0 = 0
        ∧ healthyAt (lbABC.handle_client true [ReadResult.ioError] []).1.servers 0 = true) := by
  obtain ⟨hmem, hsrv, -, -⟩ := get_next_server_some lb j lb1 hsel
  have hjlen : j < lb.servers.length := ((mem_healthyIdx _ _).mp hmem).1
  have hjlen1 : j < lb1.servers.length := by
    rw [hsrv, length_modifyIdx]
    exact hjlen
  rw [handle_client_of_some_dial_ok lb lb1 j c2s s2c hsel]
  refine ⟨?_, ?_, rfl, rfl, rfl, ?_, by decide, by decide⟩
  · intro i
    show healthyAt (modifyIdx Server.decrement_connections j lb1.servers) i = _
    rw [healthyAt,
      field_modifyIdx Server.is_healthy Server.decrement_connections (fun _ => rfl) j
        lb1.servers i,
      hsrv,
      field_modifyIdx Server.is_healthy Server.increment_connections (fun _ => rfl) j
        lb.servers i,
      healthyAt]
  · intro i
    show activeAt (modifyIdx Server.decrement_connections j lb1.servers) i = _
    by_cases hij : i = j
    · subst hij
      rw [activeAt, serverAt_modifyIdx_self _ _ hjlen1, hsrv,
        serverAt_modifyIdx_self _ _ hjlen]
      simp [Server.decrement_connections, Server.increment_connections, activeAt]
    · rw [activeAt, serverAt_modifyIdx_ne _ _ hij, hsrv,
        serverAt_modifyIdx_ne _ _ hij, activeAt]
  · rw [handle_client_of_some_dial_ok lb lb1 j [] [] hsel]

/-- Witness for C6: the concrete relay-reset scenario on the A,B,C state. -/
theorem claim_C6_witness :
    lbABC.get_next_server = (some 0, lbABC.get_next_server.2) ∧
      healthyAt (lbABC.handle_client true [ReadResult.ioError] []).1.servers 0
        = healthyAt lbABC.servers 0 :=
  ⟨by decide,
    (claim_C6 lbABC lbABC.get_next_server.2 0 [ReadResult.ioError] [] (by decide)).1 0⟩

/-- C7: with no healthy backend, selection under either algorithm returns no
backend and leaves the state untouched (it neither raises nor loops), and the
session then just closes the client connection, forwarding nothing and
changing nothing. -/
theorem claim_C7 (lb : LoadBalancer) (d : Bool) (c2s s2c : List ReadResult)
    (hno : ∀ s ∈ lb.servers, s.is_healthy = false) :
    lb.get_next_server = (none, lb)
    ∧ lb.round_robin = (none, lb)
    ∧ lb.least_connections = (none, lb)
    ∧ lb.handle_client d c2s s2c =
        (lb, { forwarded_to_server := [], forwarded_to_client := [],
               client_closed := true, server_closed := true, marked_unhealthy := false }) := by
  have hidx : healthyIdx lb.servers = [] := by
    rw [List.eq_nil_iff_forall_not_mem]
    intro i hi
    rw [mem_healthyIdx] at hi
    obtain ⟨hlt, hh⟩ := hi
    have := hno _ (serverAt_mem lb.servers i hlt)
    rw [healthyAt] at hh
    rw [this] at hh
    exact Bool.false_ne_true hh
  have hgns : lb.get_next_server = (none, lb) := by
    cases halg : lb.algorithm with
    | round_robin =>
        rw [LoadBalancer.get_next_server, halg]
        exact round_robin_of_no_healthy lb hidx
    | least_connections =>
        rw [LoadBalancer.get_next_server, halg]
        exact least_connections_of_no_healthy lb hidx
  exact ⟨hgns, round_robin_of_no_healthy lb hidx, least_connections_of_no_healthy lb hidx,
    handle_client_of_none lb lb d c2s s2c hgns⟩

/-- All-unhealthy variant of the A,B,C state. -/
def lbDead : LoadBalancer :=
  { lbABC with servers := lbABC.servers.map (fun s => { s with is_healthy := false }) }

/-- Witness for C7 at a concrete all-unhealthy state. -/
theorem claim_C7_witness :
    (∀ s ∈ lbDead.servers, s.is_healthy = false) ∧ lbDead.get_next_server = (none, lbDead) :=
  ⟨by decide, (claim_C7 lbDead true [] [] (by decide)).1⟩

/-- C4: a health cycle sets each backend's health flag to exactly its probe's
boolean outcome (success → healthy, any caught failure → unhealthy) and stamps
its last-check time, so a backend whose probe fails is unhealthy after that
cycle; and an unhealthy backend is never returned by either selection
strategy until some later probe succeeds. -/
theorem claim_C4 (lb : LoadBalancer) (probes : List ProbeOutcome) (now : Nat)
    (hlen : probes.length = lb.servers.length) :
    (∀ i, i < lb.servers.length →
        healthyAt (lb.health_cycle_of_probes probes now).servers i
            = check_server_health (probes.getD i (Except.ok ()))
          ∧ lastCheckAt (lb.health_cycle_of_probes probes now).servers i = now)
    ∧ (∀ e, check_server_health (Except.error e) = false)
    ∧ (check_server_health (Except.ok ()) = true)
    ∧ (∀ (lb2 : LoadBalancer) (j : Nat), healthyAt lb2.servers j = false →
        lb2.round_robin.1 ≠ some j ∧ lb2.least_connections.1 ≠ some j
          ∧ lb2.get_next_server.1 ≠ some j) := by
  refine ⟨?_, fun e => rfl, rfl, ?_⟩
  · intro i hi
    have hip : i < probes.length := by omega
    obtain ⟨h1, h2⟩ := applyHealthResults_healthyAt now lb.servers
      (probes.map (fun p => GatherResult.bool_result (check_server_health p))) i hi
      (by simpa using hip)
    refine ⟨?_, h2⟩
    show healthyAt (applyHealthResults now lb.servers _) i = _
    rw [h1, getD_map_of_lt _ probes i hip default (Except.ok ())]
    rfl
  · intro lb2 j hj
    have hnotmem : j ∉ healthyIdx lb2.servers := by
      intro hmem
      rw [mem_healthyIdx] at hmem
      rw [healthyAt] at hj hmem
      rw [hj] at hmem
      exact Bool.false_ne_true hmem.2
    refine ⟨fun h => hnotmem (round_robin_mem lb2 j h),
      fun h => hnotmem (least_connections_mem lb2 j h),
      fun h => hnotmem (get_next_server_mem lb2 j h)⟩

/-- Probe outcomes for the witness cycle: B's probe times out. -/
def probesB : List ProbeOutcome :=
  [Except.ok (), Except.error ProbeError.timeout, Except.ok ()]

/-- Witness for C4: after a cycle in which B's probe fails on the healthy
A,B,C state, B's flag equals its probe outcome (false). -/
theorem claim_C4_witness :
    probesB.length = lbABC.servers.length ∧
      healthyAt (lbABC.health_cycle_of_probes probesB 42).servers 1
        = check_server_health (probesB.getD 1 (Except.ok ())) :=
  ⟨by decide, ((claim_C4 lbABC probesB 42 (by decide)).1 1 (by decide)).1⟩

/-! ### Registry frame lemmas (for C8) -/

lemma frame_round_robin (lb : LoadBalancer) :
    lb.round_robin.2.servers.length = lb.servers.length
    ∧ ∀ i, nameAt lb.round_robin.2.servers i = nameAt lb.servers i
         ∧ hostAt lb.round_robin.2.servers i = hostAt lb.servers i
         ∧ portAt lb.round_robin.2.servers i = portAt lb.servers i := by
  by_cases hk : (healthyIdx lb.servers).length = 0
  · rw [round_robin_of_no_healthy lb (List.length_eq_zero.mp hk)]
    exact ⟨rfl, fun i => ⟨rfl, rfl, rfl⟩⟩
  · rw [round_robin_of_healthy lb (by omega)]
    refine ⟨length_modifyIdx _ _ _, fun i => ⟨?_, ?_, ?_⟩⟩
    · exact field_modifyIdx Server.name Server.increment_connections (fun _ => rfl) _ _ i
    · exact field_modifyIdx Server.host Server.increment_connections (fun _ => rfl) _ _ i
    · exact field_modifyIdx Server.port Server.increment_connections (fun _ => rfl) _ _ i

lemma frame_least_connections (lb : LoadBalancer) :
    lb.least_connections.2.servers.length = lb.servers.length
    ∧ ∀ i, nameAt lb.least_connections.2.servers i = nameAt lb.servers i
         ∧ hostAt lb.least_connections.2.servers i = hostAt lb.servers i
         ∧ portAt lb.least_connections.2.servers i = portAt lb.servers i := by
  rw [LoadBalancer.least_connections]
  cases ham : argminActive lb.servers (healthyIdx lb.servers) with
  | none => exact ⟨rfl, fun i => ⟨rfl, rfl, rfl⟩⟩
  | some j =>
      refine ⟨length_modifyIdx _ _ _, fun i => ⟨?_, ?_, ?_⟩⟩
      · exact field_modifyIdx Server.name Server.increment_connections (fun _ => rfl) _ _ i
      · exact field_modifyIdx Server.host Server.increment_connections (fun _ => rfl) _ _ i
      · exact field_modifyIdx Server.port Server.increment_connections (fun _ => rfl) _ _ i

lemma frame_get_next_server (lb : LoadBalancer) :
    lb.get_next_server.2.servers.length = lb.servers.length
    ∧ ∀ i, nameAt lb.get_next_server.2.servers i = nameAt lb.servers i
         ∧ hostAt lb.get_next_server.2.servers i = hostAt lb.servers i
         ∧ portAt lb.get_next_server.2.servers i = portAt lb.servers i := by
  cases halg : lb.algorithm with
  | round_robin =>
      rw [LoadBalancer.get_next_server, halg]
      exact frame_round_robin lb
  | least_connections =>
      rw [LoadBalancer.get_next_server, halg]
      exact frame_least_connections lb

lemma frame_handle_client (lb : LoadBalancer) (d : Bool) (c2s s2c : List ReadResult) :
    (lb.handle_client d c2s s2c).1.servers.length = lb.servers.length
    ∧ ∀ i, nameAt (lb.handle_client d c2s s2c).1.servers i = nameAt lb.servers i
         ∧ hostAt (lb.handle_client d c2s s2c).1.servers i = hostAt lb.servers i
         ∧ portAt (lb.handle_client d c2s s2c).1.servers i = portAt lb.servers i := by
  rcases hsel : lb.get_next_server with ⟨o, lb1⟩
  have hgns := frame_get_next_server lb
  rw [hsel] at hgns
  cases o with
  | none =>
      rw [handle_client_of_none lb lb1 d c2s s2c hsel]
      exact hgns
  | some j =>
      obtain ⟨hlen1, hfields1⟩ := hgns
      cases d
      · rw [handle_client_of_some_dial_fail lb lb1 j c2s s2c hsel]
        refine ⟨by rw [length_modifyIdx, length_modifyIdx]; exact hlen1, fun i => ?_⟩
        obtain ⟨hn, hh, hp⟩ := hfields1 i
        refine ⟨?_, ?_, ?_⟩
        · show nameAt (modifyIdx Server.decrement_connections j
            (modifyIdx (fun s => { s with is_healthy := false }) j lb1.servers)) i = _
          rw [nameAt,
            field_modifyIdx Server.name Server.decrement_connections (fun _ => rfl) j _ i,
            field_modifyIdx Server.name (fun s => { s with is_healthy := false })
              (fun _ => rfl) j _ i]
          exact hn
        · show hostAt (modifyIdx Server.decrement_connections j
            (modifyIdx (fun s => { s with is_healthy := false }) j lb1.servers)) i = _
          rw [hostAt,
            field_modifyIdx Server.host Server.decrement_connections (fun _ => rfl) j _ i,
            field_modifyIdx Server.host (fun s => { s with is_healthy := false })
              (fun _ => rfl) j _ i]
          exact hh
        · show portAt (modifyIdx Server.decrement_connections j
            (modifyIdx (fun s => { s with is_healthy := false }) j lb1.servers)) i = _
          rw [portAt,
            field_modifyIdx Server.port Server.decrement_connections (fun _ => rfl) j _ i,
            field_modifyIdx Server.port (fun s => { s with is_healthy := false })
              (fun _ => rfl) j _ i]
          exact hp
      · rw [handle_client_of_some_dial_ok lb lb1 j c2s s2c hsel]
        refine ⟨by rw [length_modifyIdx]; exact hlen1, fun i => ?_⟩
        obtain ⟨hn, hh, hp⟩ := hfields1 i
        refine ⟨?_, ?_, ?_⟩
        · show nameAt (modifyIdx Server.decrement_connections j lb1.servers) i = _
          rw [nameAt,
            field_modifyIdx Server.name Server.decrement_connections (fun _ => rfl) j _ i]
          exact hn
        · show hostAt (modifyIdx Server.decrement_connections j lb1.servers) i = _
          rw [hostAt,
            field_modifyIdx Server.host Server.decrement_connections (fun _ => rfl) j _ i]
          exact hh
        · show portAt (modifyIdx Server.decrement_connections j lb1.servers) i = _
          rw [portAt,
            field_modifyIdx Server.port Server.decrement_connections (fun _ => rfl) j _ i]
          exact hp

/-- C8: no runtime operation — selection under either strategy, session
handling on any path, or the health cycle — ever adds, removes or reorders
backends, and each backend's identity fields (host, port, name) are
untouched. -/
theorem claim_C8 (lb : LoadBalancer) (d : Bool) (c2s s2c : List ReadResult)
    (results : List GatherResult) (now : Nat) :
    (lb.round_robin.2.servers.length = lb.servers.length
      ∧ ∀ i, nameAt lb.round_robin.2.servers i = nameAt lb.servers i
           ∧ hostAt lb.round_robin.2.servers i = hostAt lb.servers i
           ∧ portAt lb.round_robin.2.servers i = portAt lb.servers i)
    ∧ (lb.least_connections.2.servers.length = lb.servers.length
      ∧ ∀ i, nameAt lb.least_connections.2.servers i = nameAt lb.servers i
           ∧ hostAt lb.least_connections.2.servers i = hostAt lb.servers i
           ∧ portAt lb.least_connections.2.servers i = portAt lb.servers i)
    ∧ ((lb.handle_client d c2s s2c).1.servers.length = lb.servers.length
      ∧ ∀ i, nameAt (lb.handle_client d c2s s2c).1.servers i = nameAt lb.servers i
           ∧ hostAt (lb.handle_client d c2s s2c).1.servers i = hostAt lb.servers i
           ∧ portAt (lb.handle_client d c2s s2c).1.servers i = portAt lb.servers i)
    ∧ ((lb.health_check_cycle results now).servers.length = lb.servers.length
      ∧ ∀ i, nameAt (lb.health_check_cycle results now).servers i = nameAt lb.servers i
           ∧ hostAt (lb.health_check_cycle results now).servers i = hostAt lb.servers i
           ∧ portAt (lb.health_check_cycle results now).servers i = portAt lb.servers i) := by
  refine ⟨frame_round_robin lb, frame_least_connections lb, frame_handle_client lb d c2s s2c,
    ?_, fun i => ?_⟩
  · exact applyHealthResults_length now lb.servers results
  · obtain ⟨hn, hh, hp, -, -⟩ := applyHealthResults_preserves now lb.servers results i
    exact ⟨hn, hh, hp⟩

lemma round_robin_some_inv (lb lb1 : LoadBalancer) (j : Nat)
    (h : lb.round_robin = (some j, lb1)) :
    j ∈ healthyIdx lb.servers
    ∧ lb1.servers = modifyIdx Server.increment_connections j lb.servers := by
  by_cases hk : (healthyIdx lb.servers).length = 0
  · rw [round_robin_of_no_healthy lb (List.length_eq_zero.mp hk)] at h
    simp at h
  · rw [round_robin_of_healthy lb (by omega)] at h
    injection h with h1 h2
    injection h1 with h1
    subst h1
    subst h2
    exact ⟨getD_mem_of_lt _ (Nat.mod_lt _ (by omega)), rfl⟩

/-- C9: round-robin, like least-connections, reserves at selection time: a
successful `_round_robin` call has already incremented both the selected
backend's active-connection counter and its lifetime request counter, before
any dial; hence the lifetime counter also counts sessions that then fail at
dial (where the active counter nevertheless returns to its pre-session
value). -/
theorem claim_C9 (lb lb1 : LoadBalancer) (j : Nat) (c2s s2c : List ReadResult)
    (halg : lb.algorithm = LoadBalancingAlgorithm.round_robin)
    (h : lb.round_robin = (some j, lb1)) :
    activeAt lb1.servers j = activeAt lb.servers j + 1
    ∧ totalAt lb1.servers j = totalAt lb.servers j + 1
    ∧ totalAt (lb.handle_client false c2s s2c).1.servers j = totalAt lb.servers j + 1
    ∧ activeAt (lb.handle_client false c2s s2c).1.servers j = activeAt lb.servers j := by
  obtain ⟨hmem, hsrv⟩ := round_robin_some_inv lb lb1 j h
  have hjlen : j < lb.servers.length := ((mem_healthyIdx _ _).mp hmem).1
  have hjlen1 : j < lb1.servers.length := by
    rw [hsrv, length_modifyIdx]
    exact hjlen
  have hsel : lb.get_next_server = (some j, lb1) := by
    rw [LoadBalancer.get_next_server, halg]
    exact h
  refine ⟨?_, ?_, ?_, ?_⟩
  · rw [activeAt, hsrv, serverAt_modifyIdx_self _ _ hjlen]
    rfl
  · rw [totalAt, hsrv, serverAt_modifyIdx_self _ _ hjlen]
    rfl
  · rw [handle_client_of_some_dial_fail lb lb1 j c2s s2c hsel]
    show totalAt (modifyIdx Server.decrement_connections j
      (modifyIdx (fun s => { s with is_healthy := false }) j lb1.servers)) j = _
    rw [totalAt, serverAt_modifyIdx_self _ _ (by rw [length_modifyIdx]; exact hjlen1),
      serverAt_modifyIdx_self _ _ hjlen1, hsrv, serverAt_modifyIdx_self _ _ hjlen]
    rfl
  · rw [handle_client_of_some_dial_fail lb lb1 j c2s s2c hsel]
    show activeAt (modifyIdx Server.decrement_connections j
      (modifyIdx (fun s => { s with is_healthy := false }) j lb1.servers)) j = _
    rw [activeAt, serverAt_modifyIdx_self _ _ (by rw [length_modifyIdx]; exact hjlen1),
      serverAt_modifyIdx_self _ _ hjlen1, hsrv, serverAt_modifyIdx_self _ _ hjlen]
    simp [Server.decrement_connections, Server.increment_connections, activeAt]

/-- Witness for C9: the first round-robin selection on the A,B,C state has
already bumped A's request counter to 1. -/
theorem claim_C9_witness :
    (lbABC.algorithm = LoadBalancingAlgorithm.round_robin
      ∧ lbABC.round_robin = (some 0, lbABC.round_robin.2))
    ∧ totalAt lbABC.round_robin.2.servers 0 = totalAt lbABC.servers 0 + 1 :=
  ⟨⟨by decide, by decide⟩,
    (claim_C9 lbABC lbABC.round_robin.2 0 [] [] (by decide) (by decide)).2.1⟩

/-- C10: `check_server_health` is total at its interface — every probe
outcome, success or any caught failure (timeout, refusal, I/O error), is
mapped to a boolean, with every failure mapped to `false` — and the health
loop coerces any non-boolean gather entry (an exception object) to
unhealthy, so after a cycle each zipped backend's flag is the coerced
boolean of its gather entry. -/
theorem claim_C10 (lb : LoadBalancer) (rs : List GatherResult) (now : Nat) :
    (∀ e, check_server_health (Except.error e) = false)
    ∧ check_server_health (Except.ok ()) = true
    ∧ coerceResult GatherResult.exception_result = false
    ∧ (∀ b, coerceResult (GatherResult.bool_result b) = b)
    ∧ (∀ i, i < lb.servers.length → i < rs.length →
        healthyAt (lb.health_check_cycle rs now).servers i
          = coerceResult (rs.getD i default)) := by
  refine ⟨fun e => rfl, rfl, rfl, fun b => rfl, ?_⟩
  intro i hi hir
  exact (applyHealthResults_healthyAt now lb.servers rs i hi hir).1

/-- Witness for C10: a cycle whose middle gather entry is an exception object
leaves B coerced to unhealthy on the concrete A,B,C state. -/
theorem claim_C10_witness :
    (1 < lbABC.servers.length ∧
        1 < [GatherResult.bool_result true, GatherResult.exception_result,
          GatherResult.bool_result true].length)
    ∧ healthyAt (lbABC.health_check_cycle
        [GatherResult.bool_result true, GatherResult.exception_result,
          GatherResult.bool_result true] 9).servers 1
      = coerceResult ([GatherResult.bool_result true, GatherResult.exception_result,
          GatherResult.bool_result true].getD 1 default) :=
  ⟨⟨by decide, by decide⟩,
    (claim_C10 lbABC [GatherResult.bool_result true, GatherResult.exception_result,
      GatherResult.bool_result true] 9).2.2.2.2 1 (by decide) (by decide)⟩
